import Mathlib

set_option maxHeartbeats 1000000
set_option maxRecDepth 4000

/-!
Shallow embedding of the `xmi-converter` repository (files `xmi2json.py` and
`xmi2conll.py`).  Strings are modelled as `List Char`; Python `int` as `Int`;
Python dictionaries as insertion-ordered association lists with
replace-in-place update, matching CPython semantics.  The XML `ElementTree`
view of an XMI file (the Sofa element and the Token elements) is supplied as
data alongside the raw character content, since the repository reads both
views of the same file: the structural view through `ET.fromstring` and the
raw line-oriented view through `str.split("\n")`.
-/

namespace Xmi

/-- Python whitespace (`str.split()`, `str.strip()`, regex class `\s`),
restricted to the ASCII range. -/
def pyIsSpace (c : Char) : Bool :=
  c = ' ' || c = '\t' || c = '\n' || c = '\r' || c = '\x0b' || c = '\x0c'

/-- Characters of the regex class `\w`, restricted to the ASCII range. -/
def isWordChar (c : Char) : Bool :=
  c.isAlphanum || c = '_'

/-- Python `str.strip()`: remove whitespace from both ends. -/
def pyStrip (l : List Char) : List Char :=
  ((l.dropWhile pyIsSpace).reverse.dropWhile pyIsSpace).reverse

/-- Fuel-indexed body of `collapseWs`; the recursion consumes at least one
character per step, so fuel equal to the length of the list is always enough
(`collapseWsF_fuel`). -/
def collapseWsF : Nat → List Char → List Char
  | 0, _ => []
  | _ + 1, [] => []
  | fuel + 1, c :: cs =>
    if pyIsSpace c then ' ' :: collapseWsF fuel (cs.dropWhile pyIsSpace)
    else c :: collapseWsF fuel cs

/-- Python `re.sub(r"\s+", " ", s)`: collapse each whitespace run to one
space. -/
def collapseWs (l : List Char) : List Char := collapseWsF l.length l

/-- Numeric value of one decimal digit character. -/
def digitVal (c : Char) : Nat := c.toNat - '0'.toNat

/-- Value of a string of decimal digits. -/
def pyDigits (l : List Char) : Nat := l.foldl (fun a c => a * 10 + digitVal c) 0

/-- Python `int(s)` on a string: strips whitespace, allows one optional sign,
then requires a nonempty run of decimal digits.  (Numeric-literal underscores,
which CPython also accepts, are not modelled: they cannot appear in the digit
groups the converter feeds to `int`.)  Returns `none` where CPython raises
`ValueError`. -/
def pyInt (s : List Char) : Option Int :=
  match pyStrip s with
  | '-' :: ds =>
    if !ds.isEmpty && ds.all Char.isDigit then some (-(pyDigits ds : Int)) else none
  | '+' :: ds =>
    if !ds.isEmpty && ds.all Char.isDigit then some ((pyDigits ds : Nat) : Int) else none
  | ds =>
    if !ds.isEmpty && ds.all Char.isDigit then some ((pyDigits ds : Nat) : Int) else none

/-- Clamp one Python slice index to the length of the sequence. -/
def sliceIdx (n : Nat) (i : Int) : Nat :=
  if i < 0 then ((n : Int) + i).toNat else min i.toNat n

/-- Python `s[b:e]` on a string, with full negative-index and clamping
semantics. -/
def pySlice (l : List Char) (b e : Int) : List Char :=
  (l.drop (sliceIdx l.length b)).take (sliceIdx l.length e - sliceIdx l.length b)

/-- Decimal representation of a natural number. -/
def natRepr (n : Nat) : List Char := (Nat.repr n).data

/-- Python `str(i)` for an integer. -/
def pyIntRepr (i : Int) : List Char :=
  if i < 0 then '-' :: natRepr i.natAbs else natRepr i.toNat

/-- Python `s.split("\n")`: split at every newline, keeping empty pieces. -/
def splitLines : List Char → List (List Char)
  | [] => [[]]
  | c :: cs =>
    if c = '\n' then [] :: splitLines cs
    else
      match splitLines cs with
      | [] => [[c]]
      | l :: ls => (c :: l) :: ls

/-- Fuel-indexed body of `splitWs`; each step consumes at least one
character, so fuel equal to the length of the list is always enough
(`splitWsF_fuel`). -/
def splitWsF : Nat → List Char → List (List Char)
  | 0, _ => []
  | _ + 1, [] => []
  | fuel + 1, c :: cs =>
    if pyIsSpace c then splitWsF fuel cs
    else (c :: cs.takeWhile (fun x => !pyIsSpace x)) ::
      splitWsF fuel (cs.dropWhile (fun x => !pyIsSpace x))

/-- Python `s.split()` with no argument: the maximal nonempty runs of
non-whitespace characters. -/
def splitWs (l : List Char) : List (List Char) := splitWsF l.length l

/-- Boolean prefix test on character lists. -/
def isPrefixL : List Char → List Char → Bool
  | [], _ => true
  | _ :: _, [] => false
  | a :: as, b :: bs => a = b && isPrefixL as bs

/-- Index of the first occurrence of `needle` in `l` (used to model both
`re.search` position scanning and Python `str.find`). -/
def firstOcc (needle : List Char) : List Char → Option Nat
  | [] => if needle.isEmpty then some 0 else none
  | c :: cs =>
    if isPrefixL needle (c :: cs) then some 0
    else (firstOcc needle cs).map (· + 1)

/-- Clamp the `start` argument of Python `str.find` (negative values count
from the end). -/
def startClamp (n : Nat) (i : Int) : Nat :=
  if i < 0 then ((n : Int) + i).toNat else i.toNat

/-- Python `hay.find(needle, start)`: smallest index `≥ start` where `needle`
occurs, or `-1`. -/
def pyFind (hay needle : List Char) (start : Int) : Int :=
  match firstOcc needle (hay.drop (startClamp hay.length start)) with
  | some k => ((k + startClamp hay.length start : Nat) : Int)
  | none => -1

/-- Python `" ".join(parts)`. -/
def joinSpace (parts : List (List Char)) : List Char :=
  List.intercalate " ".data parts

/-- Lookup in an insertion-ordered association list (Python dict read). -/
def alget {α β : Type} [DecidableEq α] : List (α × β) → α → Option β
  | [], _ => none
  | (k, v) :: t, k2 => if k = k2 then some v else alget t k2

/-- Update of an insertion-ordered association list (Python dict write):
replace in place when the key exists, else append at the end. -/
def alset {α β : Type} [DecidableEq α] : List (α × β) → α → β → List (α × β)
  | [], k, v => [(k, v)]
  | (k1, v1) :: t, k, v =>
    if k1 = k then (k, v) :: t else (k1, v1) :: alset t k v

/-- The keys of an association list, in order. -/
def alkeys {α β : Type} (l : List (α × β)) : List α := l.map (·.1)

/-- A Python dict value as stored by this program: either a string or an
integer. -/
inductive Val where
  | s (v : List Char)
  | n (v : Int)
deriving DecidableEq

/-- One annotation record (`anno_data` in the source): a Python dict from
attribute names to values. -/
abbrev Dict := List (List Char × Val)

/-- The identifier-keyed mapping of annotation records (`annos`, `ners`,
`relations` in the source). -/
abbrev AnnoMap := List (List Char × Dict)

/-- One Token element of the `ElementTree` view: the attribute strings the
source reads with `token.get(...)` (absent attributes are `none`). -/
structure TokenElem where
  xmi_id : Option (List Char)
  beginAttr : Option (List Char)
  endAttr : Option (List Char)
deriving DecidableEq

/-- One entry of the `tokens` list built by `extract_tokens_from_xmi`. -/
structure TokRec where
  xmi_id : Option (List Char)
  «begin» : Int
  «end» : Int
  token : List Char
deriving DecidableEq

/-- `int(element.get(name))`: `TypeError` when the attribute is absent
(`int(None)`), `ValueError` when it does not parse as an integer.  Both
propagate in the source. -/
def pyIntAttr : Option (List Char) → Except (List Char) Int
  | none => .error "TypeError".data
  | some s =>
    match pyInt s with
    | some i => .ok i
    | none => .error "ValueError".data

/-- Loop body of `extract_tokens_from_xmi`: walk the Token elements in
document order, accumulating the `tokens` list and the `(begin, end)`-keyed
`token_lookup`. -/
def extract_tokens_go (sofa_text : List Char) :
    List TokenElem → List TokRec → List ((Int × Int) × List Char) →
    Except (List Char) (List TokRec × List ((Int × Int) × List Char))
  | [], toks, lk => .ok (toks, lk)
  | el :: rest, toks, lk =>
    match pyIntAttr el.beginAttr with
    | .error msg => .error msg
    | .ok b =>
      match pyIntAttr el.endAttr with
      | .error msg => .error msg
      | .ok e =>
        let txt := collapseWs (pyStrip (pySlice sofa_text b e))
        if txt.isEmpty then extract_tokens_go sofa_text rest toks lk
        else
          extract_tokens_go sofa_text rest
            (toks ++ [{ xmi_id := el.xmi_id, «begin» := b, «end» := e, token := txt }])
            (alset lk (b, e) txt)

/-- `extract_tokens_from_xmi`: the Sofa text is the `sofaString` attribute of
the Sofa element, or `""` when that element is absent; each Token element's
`begin`/`end` attributes are parsed with `int(...)` (failures propagate), the
token text is the whitespace-normalized Sofa slice, and tokens whose
normalized text is empty are dropped. -/
def extract_tokens_from_xmi (sofa : Option (List Char)) (elems : List TokenElem) :
    Except (List Char) (List TokRec × List ((Int × Int) × List Char)) :=
  extract_tokens_go (sofa.getD []) elems [] []

/-- `re.search` for a pattern of the shape `lit(\d+)"` (the `xmi:id`, `begin`
and `end` probes): first position where the literal is followed by a nonempty
digit run that is itself followed by a double quote; returns the digit
group. -/
def searchLitDigits (lit : List Char) : List Char → Option (List Char)
  | [] => none
  | c :: cs =>
    if isPrefixL lit (c :: cs) then
      let r := (c :: cs).drop lit.length
      let d := r.takeWhile Char.isDigit
      if !d.isEmpty && (r.drop d.length).head? = some '"' then some d
      else searchLitDigits lit cs
    else searchLitDigits lit cs

/-- Match of the label pattern `<custom\d?:(\w+)` at one position: the literal
`<custom`, one optional digit, a colon, then the captured nonempty word-char
run. -/
def matchLabelAt (s : List Char) : Option (List Char) :=
  if isPrefixL "<custom".data s then
    match s.drop 7 with
    | ':' :: rest =>
      let w := rest.takeWhile isWordChar
      if w.isEmpty then none else some w
    | c :: ':' :: rest =>
      if c.isDigit then
        let w := rest.takeWhile isWordChar
        if w.isEmpty then none else some w
      else none
    | _ => none
  else none

/-- `re.search(r"<custom\d?:(\w+)", line)`: scan every position for the label
pattern. -/
def searchLabel : List Char → Option (List Char)
  | [] => none
  | c :: cs =>
    match matchLabelAt (c :: cs) with
    | some w => some w
    | none => searchLabel cs

/-- `re.findall(r'(\w+)="([^"]+)"', line)`: leftmost non-overlapping matches,
each giving an attribute name (a maximal word-char run immediately followed by
`="`) and a nonempty quote-free value.  Note that for `xmi:id="7"` the name
captured is `id`: a colon is not a word character. -/
def findAttrsF : Nat → List Char → List (List Char × List Char)
  | 0, _ => []
  | _ + 1, [] => []
  | fuel + 1, c :: cs =>
    if isWordChar c then
      match cs.dropWhile isWordChar with
      | '=' :: '"' :: r2 =>
        let v := r2.takeWhile (fun x => x ≠ '"')
        if v.isEmpty then findAttrsF fuel cs
        else
          match r2.drop v.length with
          | '"' :: r3 => (c :: cs.takeWhile isWordChar, v) :: findAttrsF fuel r3
          | _ => findAttrsF fuel cs
      | _ => findAttrsF fuel cs
    else findAttrsF fuel cs

/-- Entry point for the attribute scan: each step moves at least one
character forward (a successful match jumps past its closing quote), so fuel
equal to the length of the line is always enough. -/
def findAttrs (l : List Char) : List (List Char × List Char) :=
  findAttrsF l.length l

/-- The reserved attribute names of `extract_custom_annos`.  (`xmi:id` can
never equal a captured name, since `\w+` stops at the colon.) -/
def reservedAttrs : List (List Char) :=
  ["xmi:id".data, "begin".data, "end".data, "sofa".data]

/-- One step of the attribute loop of `extract_custom_annos`: skip a captured
pair whose name is reserved, store every other pair. -/
def attrFold (acc : Dict) (nv : List Char × List Char) : Dict :=
  if nv.1 ∈ reservedAttrs then acc else alset acc nv.1 (Val.s nv.2)

/-- The storage key of a finished record: `anno_data["xmi_id"]`, read after
the attribute loop.  The `xmi_id` field is always present (the record starts
with it) and always holds a string (it is set to the probe digits and only
ever overwritten by captured attribute values, which are strings — see
`parseCustomLine_key`), so the fallback branch is unreachable. -/
def recordKey (d : Dict) : List Char :=
  match alget d "xmi_id".data with
  | some (Val.s k) => k
  | _ => []

/-- Processing of one line of `extract_custom_annos`: the four probes (label,
`xmi:id`, `begin`, `end`) must all succeed; on acceptance the record starts
with `xmi_id`, `begin`, `end`, `label` and then folds in every captured
attribute pair whose name is not reserved.  Returns the key under which the
record is stored — `anno_data["xmi_id"]` read after the attribute loop, so a
captured non-reserved `xmi_id="…"` attribute changes it — together with the
record. -/
def parseCustomLine (line : List Char) : Option (List Char × Dict) :=
  match searchLabel line, searchLitDigits "xmi:id=\"".data line,
      searchLitDigits "begin=\"".data line, searchLitDigits "end=\"".data line with
  | some lab, some idd, some bd, some ed =>
    some (recordKey ((findAttrs line).foldl attrFold
        [("xmi_id".data, Val.s idd),
         ("begin".data, Val.n ((pyDigits bd : Nat) : Int)),
         ("end".data, Val.n ((pyDigits ed : Nat) : Int)),
         ("label".data, Val.s lab)]),
      (findAttrs line).foldl attrFold
        [("xmi_id".data, Val.s idd),
         ("begin".data, Val.n ((pyDigits bd : Nat) : Int)),
         ("end".data, Val.n ((pyDigits ed : Nat) : Int)),
         ("label".data, Val.s lab)])
  | _, _, _, _ => none

/-- The `annos` mapping of `extract_custom_annos`: fold the accepted lines
into an identifier-keyed dict, later lines overwriting earlier ones at the
same identifier. -/
def annos_of_lines (lines : List (List Char)) : AnnoMap :=
  lines.foldl
    (fun m line =>
      match parseCustomLine line with
      | some (k, d) => alset m k d
      | none => m)
    []

/-- Python `"Dependent" in v` on a record. -/
def hasDep (d : Dict) : Bool := (alget d "Dependent".data).isSome

/-- Python `"Governor" in v` on a record. -/
def hasGov (d : Dict) : Bool := (alget d "Governor".data).isSome

/-- `extract_custom_annos`: split the raw content on newlines, build the
`annos` mapping, then return `ners` (records with neither a `Dependent` nor a
`Governor` attribute) and `relations` (records with both). -/
def extract_custom_annos (xmi_content : List Char) : AnnoMap × AnnoMap :=
  ((annos_of_lines (splitLines xmi_content)).filter
      (fun kv => !hasDep kv.2 && !hasGov kv.2),
   (annos_of_lines (splitLines xmi_content)).filter
      (fun kv => hasDep kv.2 && hasGov kv.2))

/-- Read an integer-valued field of a record, as Python evaluation of
`span["begin"]` followed by an integer comparison would: `KeyError` when the
key is absent, `TypeError` when the value is not an integer. -/
def dgetInt (d : Dict) (k : List Char) : Except (List Char) Int :=
  match alget d k with
  | some (Val.n i) => .ok i
  | some (Val.s _) => .error "TypeError".data
  | none => .error "KeyError".data

/-- Loop body of `map_tokens_to_spans` for one span record.  When the token
list is empty the comprehension never evaluates `span["begin"]`, so no key or
type error can occur and the span text is `"UNKNOWN"`; otherwise the bound
fields are read (errors propagate as they would on the first comparison) and
the span gets the joined text of the tokens whose `begin` lies within
`[span["begin"], span["end"]]`.  (CPython would detect a missing or malformed
`end` only when some token passes the first comparison; this embedding reads
it eagerly in the nonempty case.) -/
def map_span_one (tokens : List TokRec) (sp : Dict) : Except (List Char) Dict :=
  match tokens with
  | [] => .ok (alset sp "token".data (Val.s "UNKNOWN".data))
  | _ :: _ =>
    match dgetInt sp "begin".data with
    | .error msg => .error msg
    | .ok b =>
      match dgetInt sp "end".data with
      | .error msg => .error msg
      | .ok e =>
        let ts := (tokens.filter
          (fun t => decide (b ≤ t.«begin») && decide (t.«begin» ≤ e))).map
          (fun t => t.token)
        .ok (alset sp "token".data
          (Val.s (if ts.isEmpty then "UNKNOWN".data else joinSpace ts)))

/-- `map_tokens_to_spans`: attach the derived `token` field to every span
record in order.  The `token_lookup` argument is accepted and ignored, as in
the source. -/
def map_tokens_to_spans (tokens : List TokRec)
    (token_lookup : List ((Int × Int) × List Char)) :
    AnnoMap → Except (List Char) AnnoMap
  | [] => .ok []
  | (k, sp) :: rest =>
    match map_span_one tokens sp with
    | .error msg => .error msg
    | .ok sp2 =>
      match map_tokens_to_spans tokens token_lookup rest with
      | .error msg => .error msg
      | .ok rest2 => .ok ((k, sp2) :: rest2)

/-- `ners.get(rel.get(side), {}).get("token", "UNKNOWN")`: resolve one
relationship endpoint.  A missing `Dependent`/`Governor` attribute gives the
key `None`, and an integer value a key of the wrong type; neither is present
in the string-keyed span mapping, so both fall back to the empty dict and
hence to `"UNKNOWN"`. -/
def resolveEndpoint (ners : AnnoMap) (ov : Option Val) : Val :=
  let spanDict : Dict :=
    match ov with
    | some (Val.s k) => (alget ners k).getD []
    | _ => []
  (alget spanDict "token".data).getD (Val.s "UNKNOWN".data)

/-- Loop body of `map_relationships` for one relationship record:
`rel["xmi_id"]` and `rel["label"]` raise `KeyError` when absent; the two
endpoints are resolved with defaulting lookups and never raise. -/
def map_rel_one (ners : AnnoMap) (rel : Dict) : Except (List Char) Dict :=
  match alget rel "xmi_id".data with
  | none => .error "KeyError".data
  | some xv =>
    match alget rel "label".data with
    | none => .error "KeyError".data
    | some lv =>
      .ok
        [("xmi_id".data, xv), ("label".data, lv),
         ("rel_dep".data, resolveEndpoint ners (alget rel "Dependent".data)),
         ("rel_gov".data, resolveEndpoint ners (alget rel "Governor".data))]

/-- `map_relationships`: flatten every relationship record in mapping order. -/
def map_relationships (relations : AnnoMap) (ners : AnnoMap) :
    Except (List Char) (List Dict) :=
  match relations with
  | [] => .ok []
  | (_, rel) :: rest =>
    match map_rel_one ners rel with
    | .error msg => .error msg
    | .ok r =>
      match map_relationships rest ners with
      | .error msg => .error msg
      | .ok rs => .ok (r :: rs)

/-- The two views of one XMI file: the raw character content (scanned line by
line by `extract_custom_annos`) and the `ElementTree` view of that same
content (the Sofa element's `sofaString` attribute and the Token elements)
that `ET.fromstring` produces from it. -/
structure XmiContent where
  raw : List Char
  sofa : Option (List Char)
  tokenElems : List TokenElem

/-- The pure core of `process_xmi_file`: extraction and the two mapping
stages.  A propagated error aborts the conversion before anything is
written. -/
def process_xmi_file (c : XmiContent) :
    Except (List Char) (AnnoMap × List Dict) :=
  match extract_tokens_from_xmi c.sofa c.tokenElems with
  | .error msg => .error msg
  | .ok (tokens, token_lookup) =>
    match map_tokens_to_spans tokens token_lookup (extract_custom_annos c.raw).1 with
    | .error msg => .error msg
    | .ok ners_spans =>
      match map_relationships (extract_custom_annos c.raw).2 ners_spans with
      | .error msg => .error msg
      | .ok relationships => .ok (ners_spans, relationships)

/-- `extract_sofa_string`: the Sofa text, or `""` when the element is
absent. -/
def extract_sofa_string (c : XmiContent) : List Char := c.sofa.getD []

/-- The token/offset triples of `convert_to_conll`: for each whitespace token
in order, `start = text.find(token, cursor)`, `end = start + len(token)`, and
the cursor advances to `end`. -/
def build_td_go (text : List Char) (cur : Int) :
    List (List Char) → List (List Char × Int × Int)
  | [] => []
  | t :: ts =>
    let s := pyFind text t cur
    (t, s, s + (t.length : Int)) :: build_td_go text (s + (t.length : Int)) ts

/-- The `token_data` list of `convert_to_conll`. -/
def build_token_data (text : List Char) : List (List Char × Int × Int) :=
  build_td_go text 0 (splitWs text)

/-- The initial `token_labels` dict: every token start offset maps to
`"O"`. -/
def labels0 (td : List (List Char × Int × Int)) : List (Int × List Char) :=
  td.foldl (fun m t => alset m t.2.1 "O".data) []

/-- The containment test of the BIO loop: `start_idx >= begin and
end_idx <= end`. -/
def containsTok (b e : Int) (tk : List Char × Int × Int) : Bool :=
  decide (b ≤ tk.2.1) && decide (tk.2.2 ≤ e)

/-- The inner loop of `convert_to_conll` for one span: walk the token list
with the `inside_entity` flag, writing `B-label` at the first contained token
and `I-label` at every later contained token. -/
def tagSpan (b e : Int) (lab : List Char) :
    List (List Char × Int × Int) → Bool → List (Int × List Char) →
    List (Int × List Char)
  | [], _, m => m
  | tk :: rest, inside, m =>
    if containsTok b e tk then
      if inside then tagSpan b e lab rest true (alset m tk.2.1 ("I-".data ++ lab))
      else tagSpan b e lab rest true (alset m tk.2.1 ("B-".data ++ lab))
    else tagSpan b e lab rest inside m

/-- Python string interpolation of a dict value (`f"B-{label}"` works for
any value type). -/
def valStr : Val → List Char
  | .s v => v
  | .n i => pyIntRepr i

/-- Read the `label`, `begin`, `end` fields of every span record, in mapping
order and in the evaluation order of the source (`span["label"]` first).
A missing field is a `KeyError`; a non-integer bound is reported as the
`TypeError` CPython would raise at the first containment comparison.  (When
the token list is empty CPython would not reach that comparison; this
embedding reads the bounds eagerly.) -/
def spanTriples : AnnoMap → Except (List Char) (List (Int × Int × List Char))
  | [] => .ok []
  | (_, sp) :: rest =>
    match alget sp "label".data with
    | none => .error "KeyError".data
    | some lv =>
      match dgetInt sp "begin".data with
      | .error msg => .error msg
      | .ok b =>
        match dgetInt sp "end".data with
        | .error msg => .error msg
        | .ok e =>
          match spanTriples rest with
          | .error msg => .error msg
          | .ok rs => .ok ((b, e, valStr lv) :: rs)

/-- The full BIO pass of `convert_to_conll`: starting from the all-`"O"`
labels, apply `tagSpan` for every span in mapping order, each with a fresh
`inside_entity = False`. -/
def assign_labels (td : List (List Char × Int × Int))
    (triples : List (Int × Int × List Char)) : List (Int × List Char) :=
  triples.foldl (fun m sp => tagSpan sp.1 sp.2.1 sp.2.2 td false m) (labels0 td)

/-- One output line: `f"{token} {start_idx} {end_idx} {label}"`. -/
def conll_line (labels : List (Int × List Char)) (tk : List Char × Int × Int) :
    List Char :=
  tk.1 ++ " ".data ++ pyIntRepr tk.2.1 ++ " ".data ++ pyIntRepr tk.2.2 ++
    " ".data ++ (alget labels tk.2.1).getD "KeyError".data

/-- `convert_to_conll`: whitespace re-tokenization with forward-scanning
offsets, BIO tagging against the span records, and newline-joined
emission. -/
def convert_to_conll (c : XmiContent) (ners_spans : AnnoMap) :
    Except (List Char) (List Char) :=
  match spanTriples ners_spans with
  | .error msg => .error msg
  | .ok triples =>
    .ok (List.intercalate "\n".data
      ((build_token_data (extract_sofa_string c)).map
        (conll_line (assign_labels (build_token_data (extract_sofa_string c)) triples))))

/-- The latest accepted custom-annotation line with a given identifier, read
from the back of the line list; used to characterize the dict overwrite
behavior of `annos_of_lines`. -/
def lastAccepted (k : List Char) : List (List Char) → Option Dict
  | [] => none
  | l :: ls =>
    match lastAccepted k ls with
    | some d => some d
    | none =>
      match parseCustomLine l with
      | some (k2, d) => if k2 = k then some d else none
      | none => none

/-- Specification wording of §4.4: the tokens selected for a span are exactly
those whose start offset lies within `[begin, end]`, joined by single spaces,
with the sentinel `"UNKNOWN"` when none matches. -/
def span_text_spec (tokens : List TokRec) (b e : Int) : List Char :=
  let m := (tokens.filter (fun t => decide (b ≤ t.«begin») && decide (t.«begin» ≤ e))).map
    (fun t => t.token)
  if m.isEmpty then "UNKNOWN".data else joinSpace m

/-- Specification wording of §4.5: one relationship endpoint resolves to the
referenced span's derived token text when the identifier is present in the
span mapping, and to `"UNKNOWN"` when the identifier is absent or
unresolved. -/
def resolve_endpoint_spec (ners : AnnoMap) : Option Val → Val
  | some (Val.s k) =>
    match alget ners k with
    | some sp => (alget sp "token".data).getD (Val.s "UNKNOWN".data)
    | none => Val.s "UNKNOWN".data
  | _ => Val.s "UNKNOWN".data

/-- Specification wording of §4.6: the last span (in mapping order) whose
containment test accepts the token, if any. -/
def last_containing (tk : List Char × Int × Int) :
    List (Int × Int × List Char) → Option (Int × Int × List Char)
  | [] => none
  | sp :: rest =>
    match last_containing tk rest with
    | some x => some x
    | none => if containsTok sp.1 sp.2.1 tk then some sp else none

/-- The first token of the list contained in `[b, e]`. -/
def first_contained (td : List (List Char × Int × Int)) (b e : Int) :
    Option (List Char × Int × Int) :=
  td.find? (containsTok b e)

/-- Specification wording of §4.6 for the final label of one token: `"O"`
when no span contains it; otherwise the label of the last containing span,
`B-` when the token is that span's first contained token and `I-`
otherwise. -/
def bio_spec (td : List (List Char × Int × Int))
    (triples : List (Int × Int × List Char)) (tk : List Char × Int × Int) :
    List Char :=
  match last_containing tk triples with
  | none => "O".data
  | some (b, e, lab) =>
    if first_contained td b e = some tk then "B-".data ++ lab
    else "I-".data ++ lab

/-- Occurrence structure used to verify the forward-scanning search of
`convert_to_conll`: the tokens occur in `text`, in order, each nonempty, each
at a position no earlier than the cursor, with the next token starting no
earlier than the end of the previous occurrence. -/
def OccursFrom (text : List Char) : Nat → List (List Char) → Prop
  | _, [] => True
  | cur, t :: ts =>
    ∃ p, cur ≤ p ∧ ¬t.isEmpty ∧ isPrefixL t (text.drop p) ∧
      OccursFrom text (p + t.length) ts

end Xmi

namespace Xmi

/-! ### Association-list lemmas -/

theorem alget_alset {α β : Type} [DecidableEq α] (m : List (α × β)) (k : α) (v : β)
    (k2 : α) : alget (alset m k v) k2 = if k = k2 then some v else alget m k2 := by
  induction m with
  | nil => simp [alget, alset]
  | cons hd t ih =>
    obtain ⟨k1, v1⟩ := hd
    simp only [alset]
    by_cases e1 : k1 = k
    · subst e1
      by_cases e2 : k1 = k2 <;> simp [alget, e2]
    · by_cases e2 : k1 = k2 <;> by_cases e3 : k = k2 <;>
        simp_all [alget, ih]

theorem alkeys_alset {α β : Type} [DecidableEq α] (m : List (α × β)) (k : α) (v : β)
    (x : α) : x ∈ alkeys (alset m k v) ↔ x = k ∨ x ∈ alkeys m := by
  induction m with
  | nil => simp [alkeys, alset]
  | cons hd t ih =>
    obtain ⟨k1, v1⟩ := hd
    simp only [alset]
    by_cases e1 : k1 = k
    · subst e1
      simp [alkeys]
      try tauto
    · rw [if_neg e1]
      simp [alkeys] at ih ⊢
      tauto

theorem alget_ne_of_not_mem {α β : Type} [DecidableEq α] (m : List (α × β)) (k : α)
    (h : k ∉ alkeys m) : alget m k = none := by
  induction m with
  | nil => simp [alget]
  | cons hd t ih =>
    obtain ⟨k1, v1⟩ := hd
    simp only [alkeys, List.map_cons, List.mem_cons, not_or] at h
    simp only [alget]
    rw [if_neg (fun e => h.1 e.symm)]
    exact ih h.2

theorem alkeys_nodup_alset {α β : Type} [DecidableEq α] (m : List (α × β)) (k : α)
    (v : β) (h : (alkeys m).Nodup) : (alkeys (alset m k v)).Nodup := by
  induction m with
  | nil => simp [alkeys, alset]
  | cons hd t ih =>
    obtain ⟨k1, v1⟩ := hd
    simp only [alkeys, List.map_cons, List.nodup_cons] at h
    simp only [alset]
    by_cases e1 : k1 = k
    · subst e1
      rw [if_pos rfl]
      simp only [alkeys, List.map_cons, List.nodup_cons]
      exact h
    · rw [if_neg e1]
      simp only [alkeys, List.map_cons, List.nodup_cons]
      refine ⟨?_, ih h.2⟩
      intro hmem
      rcases (alkeys_alset t k v k1).mp hmem with e | hm
      · exact e1 e
      · exact h.1 hm

theorem alget_filter {α β : Type} [DecidableEq α] (m : List (α × β))
    (p : α × β → Bool) (k : α) (h : (alkeys m).Nodup) :
    alget (m.filter p) k =
      match alget m k with
      | some v => if p (k, v) then some v else none
      | none => none := by
  induction m with
  | nil => simp [alget]
  | cons hd t ih =>
    obtain ⟨k1, v1⟩ := hd
    simp only [alkeys, List.map_cons, List.nodup_cons] at h
    by_cases e1 : k1 = k
    · subst e1
      have hnone : alget (t.filter p) k1 = none := by
        apply alget_ne_of_not_mem
        intro hmem
        apply h.1
        simp only [alkeys] at hmem ⊢
        rcases List.mem_map.mp hmem with ⟨pair, hp, he⟩
        exact List.mem_map.mpr ⟨pair, List.mem_of_mem_filter hp, he⟩
      cases hp : p (k1, v1) <;> simp [List.filter, hp, alget, hnone]
    · cases hp : p (k1, v1) <;>
        simp [List.filter, hp, alget, e1, ih h.2]

theorem annos_keys_nodup_go (lines : List (List Char)) (init : AnnoMap)
    (h : (alkeys init).Nodup) :
    (alkeys (lines.foldl
      (fun m line =>
        match parseCustomLine line with
        | some (k, d) => alset m k d
        | none => m) init)).Nodup := by
  induction lines generalizing init with
  | nil => exact h
  | cons l ls ih =>
    simp only [List.foldl_cons]
    cases hp : parseCustomLine l with
    | none => exact ih init h
    | some kd => exact ih _ (alkeys_nodup_alset init kd.1 kd.2 h)

theorem annos_keys_nodup (lines : List (List Char)) :
    (alkeys (annos_of_lines lines)).Nodup := by
  have h := annos_keys_nodup_go lines [] (by simp [alkeys])
  exact h

theorem alget_foldl_lines (lines : List (List Char)) (init : AnnoMap) (k : List Char) :
    alget (lines.foldl
      (fun m line =>
        match parseCustomLine line with
        | some (k2, d) => alset m k2 d
        | none => m) init) k =
      match lastAccepted k lines with
      | some d => some d
      | none => alget init k := by
  induction lines generalizing init with
  | nil => simp [lastAccepted]
  | cons l ls ih =>
    simp only [List.foldl_cons, lastAccepted]
    rw [ih]
    cases hLast : lastAccepted k ls with
    | some d => rfl
    | none =>
      cases hp : parseCustomLine l with
      | none => rfl
      | some kd =>
        obtain ⟨k2, d⟩ := kd
        rw [alget_alset]
        by_cases e : k2 = k <;> simp [e]

theorem alget_annos (lines : List (List Char)) (k : List Char) :
    alget (annos_of_lines lines) k =
      match lastAccepted k lines with
      | some d => some d
      | none => none := by
  rw [annos_of_lines, alget_foldl_lines]
  cases lastAccepted k lines <;> simp [alget]

theorem lastAccepted_none (k : List Char) (ls : List (List Char))
    (h : ∀ l ∈ ls, ∀ d, parseCustomLine l ≠ some (k, d)) :
    lastAccepted k ls = none := by
  induction ls with
  | nil => rfl
  | cons l t ih =>
    simp only [lastAccepted]
    rw [ih (fun x hx => h x (List.mem_cons_of_mem l hx))]
    cases hp : parseCustomLine l with
    | none => rfl
    | some kd =>
      obtain ⟨k2, d⟩ := kd
      by_cases e : k2 = k
      · subst e
        exact absurd hp (h l (List.mem_cons_self l t) d)
      · simp [e]

theorem lastAccepted_append (k : List Char) (xs ys : List (List Char)) :
    lastAccepted k (xs ++ ys) =
      match lastAccepted k ys with
      | some d => some d
      | none => lastAccepted k xs := by
  induction xs with
  | nil =>
    simp only [List.nil_append]
    cases h : lastAccepted k ys <;> simp [lastAccepted, h]
  | cons l t ih =>
    simp only [List.cons_append, lastAccepted]
    simp only [List.append_eq]
    rw [ih]
    cases lastAccepted k ys with
    | some d => rfl
    | none => rfl

/-! ### Claim C10: duplicate identifiers, last accepted line wins -/

/-- Claim C10 (amended): records are stored under `anno_data["xmi_id"]` read
after the attribute loop (the key `parseCustomLine` returns), which a
captured non-reserved `xmi_id="…"` attribute can overwrite; when several
accepted lines produce the same storage key, the mapping holds exactly the
record of the latest such line and no error is raised (the extractor is a
total function) — the dict-overwrite `annos[anno_data["xmi_id"]] =
anno_data`.  Two accepted lines with the same `xmi:id` probe value can land
under distinct storage keys, and then the earlier record survives
(`claim_C10_cex`). -/
theorem claim_C10_thm (lines pre mid post : List (List Char)) (l1 l2 k : List Char)
    (d1 d2 : Dict)
    (hsplit : lines = pre ++ l1 :: (mid ++ l2 :: post))
    (h1 : parseCustomLine l1 = some (k, d1))
    (h2 : parseCustomLine l2 = some (k, d2))
    (hpost : ∀ l ∈ post, ∀ d, parseCustomLine l ≠ some (k, d)) :
    alget (annos_of_lines lines) k = some d2 := by
  subst hsplit
  have hp : lastAccepted k post = none := lastAccepted_none k post hpost
  have hl2 : lastAccepted k (l2 :: post) = some d2 := by
    simp [lastAccepted, hp, h2]
  have hm : lastAccepted k (mid ++ l2 :: post) = some d2 := by
    rw [lastAccepted_append, hl2]
  have hll : lastAccepted k (l1 :: (mid ++ l2 :: post)) = some d2 := by
    simp only [lastAccepted, hm]
  have hfull : lastAccepted k (pre ++ l1 :: (mid ++ l2 :: post)) = some d2 := by
    rw [lastAccepted_append, hll]
  rw [alget_annos, hfull]

/-- Claim C10, witness: two accepted lines with `xmi:id="5"`; the mapping
holds the record of the second line. -/
theorem claim_C10_witness :
    alget (annos_of_lines
      ["<custom:A xmi:id=\"5\" begin=\"0\" end=\"1\" x=\"a\"/>".data,
       "<custom:B xmi:id=\"5\" begin=\"2\" end=\"3\" y=\"b\"/>".data]) "5".data =
      some [("xmi_id".data, Val.s "5".data), ("begin".data, Val.n 2),
            ("end".data, Val.n 3), ("label".data, Val.s "B".data),
            ("id".data, Val.s "5".data), ("y".data, Val.s "b".data)] :=
  claim_C10_thm _ [] [] []
    "<custom:A xmi:id=\"5\" begin=\"0\" end=\"1\" x=\"a\"/>".data
    "<custom:B xmi:id=\"5\" begin=\"2\" end=\"3\" y=\"b\"/>".data
    "5".data
    [("xmi_id".data, Val.s "5".data), ("begin".data, Val.n 0),
     ("end".data, Val.n 1), ("label".data, Val.s "A".data),
     ("id".data, Val.s "5".data), ("x".data, Val.s "a".data)]
    [("xmi_id".data, Val.s "5".data), ("begin".data, Val.n 2),
     ("end".data, Val.n 3), ("label".data, Val.s "B".data),
     ("id".data, Val.s "5".data), ("y".data, Val.s "b".data)]
    rfl rfl rfl (by intro l hl; cases hl)

/-- Claim C10, counterexample: two accepted lines both carrying the probe
value `xmi:id="5"`, the first also carrying a literal `xmi_id="99"`
attribute.  That attribute (captured by `\w+`, not reserved) overwrites the
record's `xmi_id` field before `annos[anno_data["xmi_id"]] = anno_data`
runs, so the first record is stored under `"99"`, the second under `"5"`,
and BOTH remain in the mapping — the earlier record is not replaced and its
trace survives, contrary to the claim. -/
theorem claim_C10_cex :
    searchLitDigits "xmi:id=\"".data
      "<custom:A xmi:id=\"5\" begin=\"0\" end=\"1\" xmi_id=\"99\"/>".data =
      some "5".data
    ∧ searchLitDigits "xmi:id=\"".data
        "<custom:B xmi:id=\"5\" begin=\"2\" end=\"3\" y=\"b\"/>".data =
        some "5".data
    ∧ alget (annos_of_lines
        ["<custom:A xmi:id=\"5\" begin=\"0\" end=\"1\" xmi_id=\"99\"/>".data,
         "<custom:B xmi:id=\"5\" begin=\"2\" end=\"3\" y=\"b\"/>".data])
        "99".data =
      some [("xmi_id".data, Val.s "99".data), ("begin".data, Val.n 0),
            ("end".data, Val.n 1), ("label".data, Val.s "A".data),
            ("id".data, Val.s "5".data)]
    ∧ alget (annos_of_lines
        ["<custom:A xmi:id=\"5\" begin=\"0\" end=\"1\" xmi_id=\"99\"/>".data,
         "<custom:B xmi:id=\"5\" begin=\"2\" end=\"3\" y=\"b\"/>".data])
        "5".data =
      some [("xmi_id".data, Val.s "5".data), ("begin".data, Val.n 2),
            ("end".data, Val.n 3), ("label".data, Val.s "B".data),
            ("id".data, Val.s "5".data), ("y".data, Val.s "b".data)] :=
  ⟨rfl, rfl, rfl, rfl⟩

/-! ### Claims C1 and C2: partition of the record set; captured attribute keys -/

theorem attrFold_keys (ps : List (List Char × List Char)) (acc : Dict)
    (x : List Char) :
    x ∈ alkeys (ps.foldl attrFold acc) ↔
      x ∈ alkeys acc ∨ ∃ p ∈ ps, p.1 = x ∧ p.1 ∉ reservedAttrs := by
  induction ps generalizing acc with
  | nil => simp
  | cons q qs ih =>
    simp only [List.foldl_cons]
    rw [ih]
    unfold attrFold
    by_cases hq : q.1 ∈ reservedAttrs
    · rw [if_pos hq]
      simp only [List.mem_cons]
      constructor
      · rintro (h | ⟨p, hp, he, hr⟩)
        · exact Or.inl h
        · exact Or.inr ⟨p, Or.inr hp, he, hr⟩
      · rintro (h | ⟨p, (rfl | hp), he, hr⟩)
        · exact Or.inl h
        · exact absurd hq hr
        · exact Or.inr ⟨p, hp, he, hr⟩
    · rw [if_neg hq]
      rw [show (x ∈ alkeys (alset acc q.1 (Val.s q.2))) ↔ (x = q.1 ∨ x ∈ alkeys acc) from
        alkeys_alset acc q.1 (Val.s q.2) x]
      simp only [List.mem_cons]
      constructor
      · rintro ((rfl | h) | ⟨p, hp, he, hr⟩)
        · exact Or.inr ⟨q, Or.inl rfl, rfl, hq⟩
        · exact Or.inl h
        · exact Or.inr ⟨p, Or.inr hp, he, hr⟩
      · rintro (h | ⟨p, (rfl | hp), he, hr⟩)
        · exact Or.inl (Or.inr h)
        · exact Or.inl (Or.inl he.symm)
        · exact Or.inr ⟨p, hp, he, hr⟩

theorem attrFold_reserved (ps : List (List Char × List Char)) (acc : Dict)
    (k : List Char) (hk : k ∈ reservedAttrs) :
    alget (ps.foldl attrFold acc) k = alget acc k := by
  induction ps generalizing acc with
  | nil => rfl
  | cons q qs ih =>
    simp only [List.foldl_cons]
    rw [ih]
    unfold attrFold
    by_cases hq : q.1 ∈ reservedAttrs
    · rw [if_pos hq]
    · rw [if_neg hq, alget_alset, if_neg]
      intro e
      exact hq (e ▸ hk)

theorem attrFold_xmi_id_string (ps : List (List Char × List Char)) :
    ∀ acc : Dict, (∃ v, alget acc "xmi_id".data = some (Val.s v)) →
    ∃ v, alget (ps.foldl attrFold acc) "xmi_id".data = some (Val.s v) := by
  induction ps with
  | nil =>
    intro acc h
    exact h
  | cons q qs ih =>
    intro acc h
    simp only [List.foldl_cons]
    apply ih
    unfold attrFold
    by_cases hq : q.1 ∈ reservedAttrs
    · rw [if_pos hq]
      exact h
    · rw [if_neg hq, alget_alset]
      by_cases he : q.1 = "xmi_id".data
      · rw [if_pos he]
        exact ⟨q.2, rfl⟩
      · rw [if_neg he]
        exact h

/-- The storage key of an accepted record equals the string held by the
record's `xmi_id` field: the model of `annos[anno_data["xmi_id"]]`, with the
field read after the attribute loop.  In particular `recordKey`'s fallback
branch is unreachable. -/
theorem parseCustomLine_key (line k : List Char) (d : Dict)
    (h : parseCustomLine line = some (k, d)) :
    alget d "xmi_id".data = some (Val.s k) := by
  unfold parseCustomLine at h
  split at h
  · rename_i lab idd bd ed hlab hid hbd hed
    injection h with h2
    injection h2 with hk hd
    subst hd
    obtain ⟨v, hv⟩ := attrFold_xmi_id_string (findAttrs line)
      [("xmi_id".data, Val.s idd),
       ("begin".data, Val.n ((pyDigits bd : Nat) : Int)),
       ("end".data, Val.n ((pyDigits ed : Nat) : Int)),
       ("label".data, Val.s lab)] ⟨idd, rfl⟩
    have hrk : recordKey ((findAttrs line).foldl attrFold
        [("xmi_id".data, Val.s idd),
         ("begin".data, Val.n ((pyDigits bd : Nat) : Int)),
         ("end".data, Val.n ((pyDigits ed : Nat) : Int)),
         ("label".data, Val.s lab)]) = v := by
      unfold recordKey
      rw [hv]
    rw [hv, ← hk, hrk]
  · cases h

/-- Claim C2 (amended): the keys of an accepted record are exactly the four
base fields `xmi_id`, `begin`, `end`, `label` together with every attribute
name captured by the pattern `(\w+)="([^"]+)"` that is not in the reserved
list.  The amendment: the captured name for `xmi:id="…"` is `id` (a colon is
not a word character), `id` is not reserved, so a key derived from the
reserved identifier attribute IS added, contrary to the claim. -/
theorem claim_C2_thm (line k : List Char) (d : Dict) (x : List Char)
    (h : parseCustomLine line = some (k, d)) :
    x ∈ alkeys d ↔
      x ∈ ["xmi_id".data, "begin".data, "end".data, "label".data] ∨
      ∃ p ∈ findAttrs line, p.1 = x ∧ p.1 ∉ reservedAttrs := by
  unfold parseCustomLine at h
  split at h
  · injection h with h2
    injection h2 with hk hd
    subst hk
    subst hd
    rw [attrFold_keys]
    simp [alkeys]
  · cases h

/-- Claim C2, counterexample: on an accepted line the pair `xmi:id="7"` is
captured as `("id", "7")`, the name `id` is not reserved, and the record
therefore holds a key `id` derived from the reserved identifier attribute —
the claim states no such key is added. -/
theorem claim_C2_cex :
    parseCustomLine "<custom:NER xmi:id=\"7\" begin=\"0\" end=\"3\" value=\"x\"/>".data =
      some ("7".data,
        [("xmi_id".data, Val.s "7".data), ("begin".data, Val.n 0),
         ("end".data, Val.n 3), ("label".data, Val.s "NER".data),
         ("id".data, Val.s "7".data), ("value".data, Val.s "x".data)])
    ∧ "id".data ∈ alkeys
        [("xmi_id".data, Val.s "7".data), ("begin".data, Val.n 0),
         ("end".data, Val.n 3), ("label".data, Val.s "NER".data),
         ("id".data, Val.s "7".data), ("value".data, Val.s "x".data)] :=
  ⟨rfl, by decide⟩

/-- Claim C2, witness for the amended theorem, at the accepted line of the
counterexample and the key `id`. -/
theorem claim_C2_witness :
    "id".data ∈ alkeys
        [("xmi_id".data, Val.s "7".data), ("begin".data, Val.n 0),
         ("end".data, Val.n 3), ("label".data, Val.s "NER".data),
         ("id".data, Val.s "7".data), ("value".data, Val.s "x".data)] ↔
      "id".data ∈ ["xmi_id".data, "begin".data, "end".data, "label".data] ∨
      ∃ p ∈ findAttrs "<custom:NER xmi:id=\"7\" begin=\"0\" end=\"3\" value=\"x\"/>".data,
        p.1 = "id".data ∧ p.1 ∉ reservedAttrs :=
  claim_C2_thm "<custom:NER xmi:id=\"7\" begin=\"0\" end=\"3\" value=\"x\"/>".data
    "7".data
    [("xmi_id".data, Val.s "7".data), ("begin".data, Val.n 0),
     ("end".data, Val.n 3), ("label".data, Val.s "NER".data),
     ("id".data, Val.s "7".data), ("value".data, Val.s "x".data)]
    "id".data rfl

/-- Claim C1 (amended): over the identifier-keyed record set, a record with
both a `Dependent` and a `Governor` attribute appears (under its key) exactly
in the Relationship mapping, a record with neither appears exactly in the
Entity Span mapping, and a record with exactly one of the two attributes
appears in NEITHER mapping: the partition is mutually exclusive but not
exhaustive, contrary to the claim. -/
theorem claim_C1_thm (raw k : List Char) (d : Dict)
    (h : alget (annos_of_lines (splitLines raw)) k = some d) :
    alget (extract_custom_annos raw).1 k =
      (if !hasDep d && !hasGov d then some d else none)
    ∧ alget (extract_custom_annos raw).2 k =
      (if hasDep d && hasGov d then some d else none) := by
  have hn := annos_keys_nodup (splitLines raw)
  constructor
  · show alget ((annos_of_lines (splitLines raw)).filter
      (fun kv => !hasDep kv.2 && !hasGov kv.2)) k = _
    rw [alget_filter _ _ _ hn, h]
  · show alget ((annos_of_lines (splitLines raw)).filter
      (fun kv => hasDep kv.2 && hasGov kv.2)) k = _
    rw [alget_filter _ _ _ hn, h]

/-- Claim C1, counterexample: a record carrying `Dependent` but no `Governor`
is present in the raw record set but in neither output mapping, so the
partition is not exhaustive. -/
theorem claim_C1_cex :
    (alget (annos_of_lines (splitLines
      "<custom:R xmi:id=\"1\" begin=\"0\" end=\"2\" Dependent=\"5\"/>".data))
      "1".data).isSome = true
    ∧ alget (extract_custom_annos
        "<custom:R xmi:id=\"1\" begin=\"0\" end=\"2\" Dependent=\"5\"/>".data).1
        "1".data = none
    ∧ alget (extract_custom_annos
        "<custom:R xmi:id=\"1\" begin=\"0\" end=\"2\" Dependent=\"5\"/>".data).2
        "1".data = none :=
  ⟨rfl, rfl, rfl⟩

/-- Claim C1, witness for the amended theorem, at the Dependent-only record
of the counterexample. -/
theorem claim_C1_witness :
    alget (extract_custom_annos
        "<custom:R xmi:id=\"1\" begin=\"0\" end=\"2\" Dependent=\"5\"/>".data).1
        "1".data =
      (if !hasDep
            [("xmi_id".data, Val.s "1".data), ("begin".data, Val.n 0),
             ("end".data, Val.n 2), ("label".data, Val.s "R".data),
             ("id".data, Val.s "1".data), ("Dependent".data, Val.s "5".data)] &&
          !hasGov
            [("xmi_id".data, Val.s "1".data), ("begin".data, Val.n 0),
             ("end".data, Val.n 2), ("label".data, Val.s "R".data),
             ("id".data, Val.s "1".data), ("Dependent".data, Val.s "5".data)]
        then some
            [("xmi_id".data, Val.s "1".data), ("begin".data, Val.n 0),
             ("end".data, Val.n 2), ("label".data, Val.s "R".data),
             ("id".data, Val.s "1".data), ("Dependent".data, Val.s "5".data)]
        else none)
    ∧ alget (extract_custom_annos
        "<custom:R xmi:id=\"1\" begin=\"0\" end=\"2\" Dependent=\"5\"/>".data).2
        "1".data =
      (if hasDep
            [("xmi_id".data, Val.s "1".data), ("begin".data, Val.n 0),
             ("end".data, Val.n 2), ("label".data, Val.s "R".data),
             ("id".data, Val.s "1".data), ("Dependent".data, Val.s "5".data)] &&
          hasGov
            [("xmi_id".data, Val.s "1".data), ("begin".data, Val.n 0),
             ("end".data, Val.n 2), ("label".data, Val.s "R".data),
             ("id".data, Val.s "1".data), ("Dependent".data, Val.s "5".data)]
        then some
            [("xmi_id".data, Val.s "1".data), ("begin".data, Val.n 0),
             ("end".data, Val.n 2), ("label".data, Val.s "R".data),
             ("id".data, Val.s "1".data), ("Dependent".data, Val.s "5".data)]
        else none) :=
  claim_C1_thm "<custom:R xmi:id=\"1\" begin=\"0\" end=\"2\" Dependent=\"5\"/>".data
    "1".data
    [("xmi_id".data, Val.s "1".data), ("begin".data, Val.n 0),
     ("end".data, Val.n 2), ("label".data, Val.s "R".data),
     ("id".data, Val.s "1".data), ("Dependent".data, Val.s "5".data)]
    rfl

/-! ### Claims C3 and C5: offset errors; offset invariants -/

theorem pySlice_empty_of_le (l : List Char) (b e : Int) (hb : 0 ≤ b)
    (he : 0 ≤ e) (hle : e ≤ b) : pySlice l b e = [] := by
  unfold pySlice sliceIdx
  rw [if_neg (by omega), if_neg (by omega)]
  have hz : min e.toNat l.length - min b.toNat l.length = 0 := by omega
  rw [hz]
  exact List.take_zero _

theorem extract_go_be (sofa : List Char) (elems : List TokenElem) :
    ∀ (acc : List TokRec) lk out,
    (∀ t ∈ acc, 0 ≤ t.«begin» → 0 ≤ t.«end» → t.«begin» < t.«end») →
    extract_tokens_go sofa elems acc lk = .ok out →
    ∀ t ∈ out.1, 0 ≤ t.«begin» → 0 ≤ t.«end» → t.«begin» < t.«end» := by
  induction elems with
  | nil =>
    intro acc lk out hacc h
    simp only [extract_tokens_go] at h
    injection h with h2
    subst h2
    exact hacc
  | cons el rest ih =>
    intro acc lk out hacc h
    simp only [extract_tokens_go] at h
    cases hb : pyIntAttr el.beginAttr with
    | error m =>
      rw [hb] at h
      dsimp only at h
      cases h
    | ok b =>
      rw [hb] at h
      dsimp only at h
      cases he : pyIntAttr el.endAttr with
      | error m =>
        rw [he] at h
        dsimp only at h
        cases h
      | ok e =>
        rw [he] at h
        dsimp only at h
        by_cases hemp : (collapseWs (pyStrip (pySlice sofa b e))).isEmpty = true
        · rw [if_pos hemp] at h
          exact ih _ _ _ hacc h
        · rw [if_neg hemp] at h
          refine ih _ _ _ ?_ h
          intro t ht
          rcases List.mem_append.mp ht with ht2 | ht2
          · exact hacc t ht2
          · rcases List.mem_singleton.mp ht2 with rfl
            intro hb0 he0
            by_contra hlt
            push_neg at hlt
            apply hemp
            rw [pySlice_empty_of_le sofa b e hb0 he0 hlt]
            rfl

theorem extract_go_err (sofa : List Char) (elems : List TokenElem) :
    ∀ acc lk,
    (∃ el ∈ elems, (∃ m, pyIntAttr el.beginAttr = .error m) ∨
      (∃ m, pyIntAttr el.endAttr = .error m)) →
    ∀ res, extract_tokens_go sofa elems acc lk ≠ .ok res := by
  induction elems with
  | nil =>
    intro acc lk hex res
    obtain ⟨el, hmem, _⟩ := hex
    cases hmem
  | cons el rest ih =>
    intro acc lk hex res h
    simp only [extract_tokens_go] at h
    obtain ⟨el2, hmem, hbad⟩ := hex
    cases hb : pyIntAttr el.beginAttr with
    | error m2 =>
      rw [hb] at h
      dsimp only at h
      cases h
    | ok b =>
      rw [hb] at h
      dsimp only at h
      cases he : pyIntAttr el.endAttr with
      | error m2 =>
        rw [he] at h
        dsimp only at h
        cases h
      | ok e =>
        rw [he] at h
        dsimp only at h
        rcases List.mem_cons.mp hmem with rfl | hmem2
        · rcases hbad with ⟨m, hm⟩ | ⟨m, hm⟩
          · rw [hm] at hb
            cases hb
          · rw [hm] at he
            cases he
        · split at h
          · exact ih _ _ ⟨el2, hmem2, hbad⟩ res h
          · exact ih _ _ ⟨el2, hmem2, hbad⟩ res h

theorem lastAccepted_mem (k : List Char) (ls : List (List Char)) (d : Dict)
    (h : lastAccepted k ls = some d) :
    ∃ l ∈ ls, parseCustomLine l = some (k, d) := by
  induction ls with
  | nil => cases h
  | cons l t ih =>
    simp only [lastAccepted] at h
    cases h2 : lastAccepted k t with
    | some d2 =>
      rw [h2] at h
      injection h with h3
      subst h3
      obtain ⟨l2, hm, hp⟩ := ih h2
      exact ⟨l2, List.mem_cons_of_mem l hm, hp⟩
    | none =>
      rw [h2] at h
      dsimp only at h
      cases h3 : parseCustomLine l with
      | none =>
        rw [h3] at h
        dsimp only at h
        cases h
      | some kd =>
        rw [h3] at h
        obtain ⟨k2, d2⟩ := kd
        dsimp only at h
        by_cases e : k2 = k
        · subst e
          rw [if_pos rfl] at h
          injection h with h4
          subst h4
          exact ⟨l, List.mem_cons_self l t, h3⟩
        · rw [if_neg e] at h
          cases h

theorem parse_begin_end (line k : List Char) (d : Dict)
    (h : parseCustomLine line = some (k, d)) :
    ∃ b e : Nat, alget d "begin".data = some (Val.n (b : Int)) ∧
      alget d "end".data = some (Val.n (e : Int)) := by
  unfold parseCustomLine at h
  split at h
  · rename_i lab idd bd ed hlab hid hbd hed
    injection h with h2
    injection h2 with hk hd
    subst hd
    refine ⟨pyDigits bd, pyDigits ed, ?_, ?_⟩
    · rw [attrFold_reserved _ _ _ (by decide)]
      rfl
    · rw [attrFold_reserved _ _ _ (by decide)]
      rfl
  · cases h

/-- Claim C3 (amended): only token elements are covered by the fatal-error
rule — a Token element whose `begin` or `end` attribute fails integer parsing
makes the whole file conversion fail with a propagated error; a
custom-annotation line whose `begin` (or `end`) probe finds no all-digits
value is silently skipped by `extract_custom_annos` (a total function), so
the conversion does not fail and the record is simply absent, contrary to the
claim. -/
theorem claim_C3_thm :
    (∀ (c : XmiContent),
      (∃ el ∈ c.tokenElems, (∃ m, pyIntAttr el.beginAttr = .error m) ∨
        (∃ m, pyIntAttr el.endAttr = .error m)) →
      ∀ res, process_xmi_file c ≠ .ok res)
    ∧ (∀ line : List Char,
        searchLitDigits "begin=\"".data line = none ∨
        searchLitDigits "end=\"".data line = none →
        parseCustomLine line = none) := by
  constructor
  · intro c hex res h
    unfold process_xmi_file at h
    cases hx : extract_tokens_from_xmi c.sofa c.tokenElems with
    | error m =>
      rw [hx] at h
      dsimp only at h
      cases h
    | ok out =>
      exact extract_go_err (c.sofa.getD []) c.tokenElems [] [] hex out hx
  · intro line hprobe
    unfold parseCustomLine
    split
    · rename_i lab idd bd ed hlab hid hbd hed
      rcases hprobe with hp | hp
      · rw [hp] at hbd
        cases hbd
      · rw [hp] at hed
        cases hed
    · rfl

/-- Claim C3, counterexample: a file whose only irregularity is a custom span
line with the non-integer attribute `begin="ab"` converts successfully (the
claim says the conversion must fail), and the record is silently absent. -/
theorem claim_C3_cex :
    process_xmi_file
      ⟨"<custom:Span xmi:id=\"9\" begin=\"ab\" end=\"3\"/>".data, none, []⟩ =
      .ok ([], [])
    ∧ alget (annos_of_lines (splitLines
        "<custom:Span xmi:id=\"9\" begin=\"ab\" end=\"3\"/>".data)) "9".data = none :=
  ⟨rfl, rfl⟩

/-- Claim C3, witness: a Token element with `begin="xy"` makes the conversion
fail for every possible result, and the malformed custom line is skipped. -/
theorem claim_C3_witness :
    (∀ res, process_xmi_file
      ⟨[], some "ab".data, [⟨none, some "xy".data, some "3".data⟩]⟩ ≠ .ok res)
    ∧ parseCustomLine "<custom:Span xmi:id=\"9\" begin=\"ab\" end=\"3\"/>".data = none :=
  ⟨fun res =>
    claim_C3_thm.1 ⟨[], some "ab".data, [⟨none, some "xy".data, some "3".data⟩]⟩
      ⟨⟨none, some "xy".data, some "3".data⟩, by decide,
        Or.inl ⟨"ValueError".data, rfl⟩⟩ res,
   claim_C3_thm.2 "<custom:Span xmi:id=\"9\" begin=\"ab\" end=\"3\"/>".data
     (Or.inl rfl)⟩

/-- Claim C5 (amended): every Entity Span record produced by the custom
extractor has integer `begin` and `end` fields that are non-negative (the
probes only match all-digits values), but `begin ≤ end` is NOT guaranteed for
spans, contrary to the claim; for Tokens, whenever the parsed `begin`/`end`
attributes are non-negative, every kept token satisfies `begin < end`
(a slice with `end ≤ begin` is empty and the token is dropped). -/
theorem claim_C5_thm :
    (∀ raw k d, alget (annos_of_lines (splitLines raw)) k = some d →
      ∃ b e : Int, alget d "begin".data = some (Val.n b) ∧
        alget d "end".data = some (Val.n e) ∧ 0 ≤ b ∧ 0 ≤ e)
    ∧ (∀ (sofa : Option (List Char)) (elems : List TokenElem) out,
        extract_tokens_from_xmi sofa elems = .ok out →
        ∀ t ∈ out.1, 0 ≤ t.«begin» → 0 ≤ t.«end» → t.«begin» < t.«end») := by
  constructor
  · intro raw k d h
    rw [alget_annos] at h
    cases hl : lastAccepted k (splitLines raw) with
    | none =>
      rw [hl] at h
      cases h
    | some d2 =>
      rw [hl] at h
      injection h with h2
      subst h2
      obtain ⟨l, _, hp⟩ := lastAccepted_mem k (splitLines raw) d2 hl
      obtain ⟨b, e, hb, he⟩ := parse_begin_end l k d2 hp
      exact ⟨(b : Int), (e : Int), hb, he, Int.natCast_nonneg b, Int.natCast_nonneg e⟩
  · intro sofa elems out h
    exact extract_go_be (sofa.getD []) elems [] [] out (fun t ht => absurd ht (List.not_mem_nil t)) h

/-- Claim C5, counterexample, both halves of the claim: the accepted line
`begin="10" end="5"` produces an Entity Span record with
`begin = 10 > 5 = end`, so `begin ≤ end` does not hold for every Entity
Span; and a Token element with `end="-1"` over the Sofa text `abcdef` is
kept (`int("-1")` parses, the Python slice `[1:-1]` is the nonempty
`"bcde"`), so Token offsets are not always non-negative either. -/
theorem claim_C5_cex :
    alget (extract_custom_annos
      "<custom:S xmi:id=\"2\" begin=\"10\" end=\"5\"/>".data).1 "2".data =
      some [("xmi_id".data, Val.s "2".data), ("begin".data, Val.n 10),
            ("end".data, Val.n 5), ("label".data, Val.s "S".data),
            ("id".data, Val.s "2".data)]
    ∧ ¬((10 : Int) ≤ 5)
    ∧ extract_tokens_from_xmi (some "abcdef".data)
        [⟨none, some "1".data, some "-1".data⟩] =
      .ok ([{ xmi_id := none, «begin» := 1, «end» := -1, token := "bcde".data }],
           [((1, -1), "bcde".data)])
    ∧ ¬((0 : Int) ≤ -1) :=
  ⟨rfl, by decide, rfl, by decide⟩

/-- Claim C5, witness: the span part applied at the counterexample record and
the token part applied at a one-token extraction. -/
theorem claim_C5_witness :
    (∃ b e : Int,
      alget [("xmi_id".data, Val.s "2".data), ("begin".data, Val.n 10),
             ("end".data, Val.n 5), ("label".data, Val.s "S".data),
             ("id".data, Val.s "2".data)] "begin".data = some (Val.n b) ∧
      alget [("xmi_id".data, Val.s "2".data), ("begin".data, Val.n 10),
             ("end".data, Val.n 5), ("label".data, Val.s "S".data),
             ("id".data, Val.s "2".data)] "end".data = some (Val.n e) ∧
      0 ≤ b ∧ 0 ≤ e)
    ∧ (0 : Int) < 2 :=
  ⟨claim_C5_thm.1 "<custom:S xmi:id=\"2\" begin=\"10\" end=\"5\"/>".data "2".data
      [("xmi_id".data, Val.s "2".data), ("begin".data, Val.n 10),
       ("end".data, Val.n 5), ("label".data, Val.s "S".data),
       ("id".data, Val.s "2".data)] rfl,
   claim_C5_thm.2 (some "ab".data) [⟨none, some "0".data, some "2".data⟩]
     ([{ xmi_id := none, «begin» := 0, «end» := 2, token := "ab".data }],
      [((0, 2), "ab".data)]) rfl
     { xmi_id := none, «begin» := 0, «end» := 2, token := "ab".data }
     (by decide) (by decide) (by decide)⟩

/-! ### Claims C7 and C9: span-to-token mapping; relationship resolution -/

theorem map_span_one_token (tokens : List TokRec) (sp sp2 : Dict) (b e : Int)
    (hms : map_span_one tokens sp = .ok sp2)
    (hb : alget sp "begin".data = some (Val.n b))
    (he : alget sp "end".data = some (Val.n e)) :
    sp2 = alset sp "token".data (Val.s (span_text_spec tokens b e)) := by
  cases tokens with
  | nil =>
    simp only [map_span_one] at hms
    injection hms with h2
    subst h2
    rfl
  | cons t ts =>
    have hdb : dgetInt sp "begin".data = .ok b := by
      unfold dgetInt
      rw [hb]
    have hde : dgetInt sp "end".data = .ok e := by
      unfold dgetInt
      rw [he]
    simp only [map_span_one] at hms
    rw [hdb] at hms
    dsimp only at hms
    rw [hde] at hms
    dsimp only at hms
    injection hms with h2
    subst h2
    rfl

/-- Claim C7: `map_tokens_to_spans` gives every span record a derived `token`
field equal to the single-space join, in token order, of the text of exactly
those tokens whose begin offset satisfies `span.begin ≤ token.begin ≤
span.end` (only the start offset is tested), and to `"UNKNOWN"` when no
token's begin offset lies in that closed interval. -/
theorem claim_C7_thm (tokens : List TokRec)
    (token_lookup : List ((Int × Int) × List Char)) (spans out : AnnoMap)
    (k : List Char) (sp : Dict) (b e : Int)
    (h : map_tokens_to_spans tokens token_lookup spans = .ok out)
    (hk : alget spans k = some sp)
    (hb : alget sp "begin".data = some (Val.n b))
    (he : alget sp "end".data = some (Val.n e)) :
    alget out k = some (alset sp "token".data (Val.s (span_text_spec tokens b e))) := by
  induction spans generalizing out with
  | nil => cases hk
  | cons hd rest ih =>
    obtain ⟨k0, sp0⟩ := hd
    simp only [map_tokens_to_spans] at h
    cases hms : map_span_one tokens sp0 with
    | error m =>
      rw [hms] at h
      dsimp only at h
      cases h
    | ok sp02 =>
      rw [hms] at h
      dsimp only at h
      cases hrest : map_tokens_to_spans tokens token_lookup rest with
      | error m =>
        rw [hrest] at h
        dsimp only at h
        cases h
      | ok rest2 =>
        rw [hrest] at h
        dsimp only at h
        injection h with h2
        subst h2
        simp only [alget] at hk ⊢
        by_cases hkk : k0 = k
        · rw [if_pos hkk] at hk ⊢
          injection hk with hk2
          subst hk2
          rw [map_span_one_token tokens _ sp02 b e hms hb he]
        · rw [if_neg hkk] at hk ⊢
          exact ih rest2 hrest hk

/-- Claim C7, witness: one span `[3, 9]` over three tokens at begin offsets
`0`, `4`, `8` (the token at `8` extends past the span end and is still
selected: only start offsets are tested). -/
theorem claim_C7_witness :
    alget
      [("1".data,
        alset [("begin".data, Val.n 3), ("end".data, Val.n 9)] "token".data
          (Val.s (span_text_spec
            [{ xmi_id := none, «begin» := 0, «end» := 2, token := "aa".data },
             { xmi_id := none, «begin» := 4, «end» := 6, token := "bb".data },
             { xmi_id := none, «begin» := 8, «end» := 12, token := "cc".data }]
            3 9)))]
      "1".data =
      some (alset [("begin".data, Val.n 3), ("end".data, Val.n 9)] "token".data
        (Val.s (span_text_spec
          [{ xmi_id := none, «begin» := 0, «end» := 2, token := "aa".data },
           { xmi_id := none, «begin» := 4, «end» := 6, token := "bb".data },
           { xmi_id := none, «begin» := 8, «end» := 12, token := "cc".data }]
          3 9))) :=
  claim_C7_thm
    [{ xmi_id := none, «begin» := 0, «end» := 2, token := "aa".data },
     { xmi_id := none, «begin» := 4, «end» := 6, token := "bb".data },
     { xmi_id := none, «begin» := 8, «end» := 12, token := "cc".data }]
    []
    [("1".data, [("begin".data, Val.n 3), ("end".data, Val.n 9)])]
    [("1".data,
      alset [("begin".data, Val.n 3), ("end".data, Val.n 9)] "token".data
        (Val.s (span_text_spec
          [{ xmi_id := none, «begin» := 0, «end» := 2, token := "aa".data },
           { xmi_id := none, «begin» := 4, «end» := 6, token := "bb".data },
           { xmi_id := none, «begin» := 8, «end» := 12, token := "cc".data }]
          3 9)))]
    "1".data [("begin".data, Val.n 3), ("end".data, Val.n 9)] 3 9
    rfl rfl rfl rfl

theorem resolveEndpoint_eq_spec (ners : AnnoMap) (ov : Option Val) :
    resolveEndpoint ners ov = resolve_endpoint_spec ners ov := by
  cases ov with
  | none => rfl
  | some v =>
    cases v with
    | s k =>
      unfold resolveEndpoint resolve_endpoint_spec
      dsimp only
      cases alget ners k with
      | none => rfl
      | some sp => rfl
    | n i => rfl

/-- Claim C9: for every relationship record holding its `xmi_id` and `label`
fields, the loop body of `map_relationships` returns (without error) the
flattened record whose `rel_dep` and `rel_gov` sides independently resolve to
the referenced span's derived token text when the `Dependent`/`Governor`
identifier is present in the entity span mapping and to `"UNKNOWN"` when it
is absent or unresolved. -/
theorem claim_C9_thm (ners : AnnoMap) (rel : Dict) (xv lv : Val)
    (hx : alget rel "xmi_id".data = some xv)
    (hl : alget rel "label".data = some lv) :
    map_rel_one ners rel = .ok
      [("xmi_id".data, xv), ("label".data, lv),
       ("rel_dep".data, resolve_endpoint_spec ners (alget rel "Dependent".data)),
       ("rel_gov".data, resolve_endpoint_spec ners (alget rel "Governor".data))] := by
  unfold map_rel_one
  rw [hx]
  dsimp only
  rw [hl]
  dsimp only
  rw [resolveEndpoint_eq_spec, resolveEndpoint_eq_spec]

/-- Claim C9, witness: the spec scenario — `Dependent="5"` resolves to span
text `"cat"`, `Governor="9"` is absent, the result is
`(rel_dep, "cat")`, `(rel_gov, "UNKNOWN")`, and no error is raised. -/
theorem claim_C9_witness :
    map_rel_one [("5".data, [("token".data, Val.s "cat".data)])]
      [("xmi_id".data, Val.s "8".data), ("label".data, Val.s "rel".data),
       ("Dependent".data, Val.s "5".data), ("Governor".data, Val.s "9".data)] =
      .ok
        [("xmi_id".data, Val.s "8".data), ("label".data, Val.s "rel".data),
         ("rel_dep".data, Val.s "cat".data),
         ("rel_gov".data, Val.s "UNKNOWN".data)] :=
  (claim_C9_thm [("5".data, [("token".data, Val.s "cat".data)])]
    [("xmi_id".data, Val.s "8".data), ("label".data, Val.s "rel".data),
     ("Dependent".data, Val.s "5".data), ("Governor".data, Val.s "9".data)]
    (Val.s "8".data) (Val.s "rel".data) rfl rfl).trans rfl

/-! ### Claim C4: the Paris/France CoNLL scenario -/

/-- Claim C4, counterexample: with the claimed spans `(0,5)` and `(27,33)`
the token `France`, which occupies `[24,30)` of the document text, fails the
containment test of the second span (`24 ≥ 27` is false), so it is tagged
`O`, while the token `.` at `[31,32)` is inside `[27,33]` and receives
`B-LOC`; the full output disagrees with the claim on both tokens. -/
theorem claim_C4_cex :
    convert_to_conll
      ⟨[], some "Paris is the capital of France .".data, []⟩
      [("1".data,
        [("xmi_id".data, Val.s "1".data), ("begin".data, Val.n 0),
         ("end".data, Val.n 5), ("label".data, Val.s "LOC".data)]),
       ("2".data,
        [("xmi_id".data, Val.s "2".data), ("begin".data, Val.n 27),
         ("end".data, Val.n 33), ("label".data, Val.s "LOC".data)])] =
      .ok ("Paris 0 5 B-LOC\nis 6 8 O\nthe 9 12 O\ncapital 13 20 O\nof 21 23 O\nFrance 24 30 O\n. 31 32 B-LOC".data)
    ∧ alget
        (assign_labels
          (build_token_data "Paris is the capital of France .".data)
          [(0, 5, "LOC".data), (27, 33, "LOC".data)]) 24 = some "O".data
    ∧ alget
        (assign_labels
          (build_token_data "Paris is the capital of France .".data)
          [(0, 5, "LOC".data), (27, 33, "LOC".data)]) 31 = some "B-LOC".data :=
  ⟨rfl, rfl, rfl⟩

/-- Claim C4 (amended): with the span offsets that actually cover the two
place names — `{begin:0,end:5}` for `Paris` and `{begin:24,end:30}` for
`France` (the claimed `{27,33}` does not cover `France`, which occupies
`[24,30)`) — `convert_to_conll` tags `Paris` and `France` with `B-LOC` and
every other whitespace token with `O`. -/
theorem claim_C4_thm :
    convert_to_conll
      ⟨[], some "Paris is the capital of France .".data, []⟩
      [("1".data,
        [("xmi_id".data, Val.s "1".data), ("begin".data, Val.n 0),
         ("end".data, Val.n 5), ("label".data, Val.s "LOC".data)]),
       ("2".data,
        [("xmi_id".data, Val.s "2".data), ("begin".data, Val.n 24),
         ("end".data, Val.n 30), ("label".data, Val.s "LOC".data)])] =
      .ok ("Paris 0 5 B-LOC\nis 6 8 O\nthe 9 12 O\ncapital 13 20 O\nof 21 23 O\nFrance 24 30 B-LOC\n. 31 32 O".data) :=
  rfl

/-! ### Claim C8: the forward-scanning offsets reproduce the token text -/

theorem isPrefixL_length_le (t l : List Char) (h : isPrefixL t l = true) :
    t.length ≤ l.length := by
  induction t generalizing l with
  | nil => simp
  | cons a as ih =>
    cases l with
    | nil => cases h
    | cons b bs =>
      simp only [isPrefixL, Bool.and_eq_true, decide_eq_true_eq] at h
      simp only [List.length_cons]
      exact Nat.succ_le_succ (ih bs h.2)

theorem take_eq_of_isPrefixL (t l : List Char) (h : isPrefixL t l = true) :
    l.take t.length = t := by
  induction t generalizing l with
  | nil => simp
  | cons a as ih =>
    cases l with
    | nil => cases h
    | cons b bs =>
      simp only [isPrefixL, Bool.and_eq_true, decide_eq_true_eq] at h
      simp only [List.length_cons, List.take_succ_cons]
      rw [h.1, ih bs h.2]

theorem isPrefixL_takeWhile (p : Char → Bool) (l : List Char) :
    isPrefixL (l.takeWhile p) l = true := by
  induction l with
  | nil => rfl
  | cons c cs ih =>
    rw [List.takeWhile_cons]
    split
    · simp [isPrefixL, ih]
    · rfl

theorem drop_takeWhile_length (p : Char → Bool) (l : List Char) :
    l.drop (l.takeWhile p).length = l.dropWhile p := by
  induction l with
  | nil => rfl
  | cons c cs ih =>
    rw [List.takeWhile_cons, List.dropWhile_cons]
    split
    · simp only [List.length_cons, List.drop_succ_cons]
      exact ih
    · rfl

theorem firstOcc_some (nd l : List Char) (j : Nat) (h : firstOcc nd l = some j) :
    isPrefixL nd (l.drop j) = true := by
  induction l generalizing j with
  | nil =>
    simp only [firstOcc] at h
    split at h
    · injection h with h2
      subst h2
      rename_i hh
      cases nd with
      | nil => rfl
      | cons a as => cases hh
    · cases h
  | cons c cs ih =>
    simp only [firstOcc] at h
    split at h
    · injection h with h2
      subst h2
      rename_i hh
      exact hh
    · cases h2 : firstOcc nd cs with
      | none =>
        rw [h2] at h
        cases h
      | some j2 =>
        rw [h2] at h
        injection h with h3
        subst h3
        simp only [List.drop_succ_cons]
        exact ih j2 h2

theorem firstOcc_exists_le (nd l : List Char) (j : Nat)
    (h : isPrefixL nd (l.drop j) = true) :
    ∃ i, firstOcc nd l = some i ∧ i ≤ j := by
  induction l generalizing j with
  | nil =>
    rw [List.drop_nil] at h
    cases nd with
    | nil => exact ⟨0, rfl, Nat.zero_le j⟩
    | cons a as => cases h
  | cons c cs ih =>
    by_cases hp : isPrefixL nd (c :: cs) = true
    · refine ⟨0, ?_, Nat.zero_le j⟩
      simp [firstOcc, hp]
    · cases j with
      | zero =>
        rw [List.drop_zero] at h
        exact absurd h hp
      | succ j2 =>
        rw [List.drop_succ_cons] at h
        obtain ⟨i, hi, hle⟩ := ih j2 h
        refine ⟨i + 1, ?_, Nat.succ_le_succ hle⟩
        simp [firstOcc, hp, hi]

theorem occursFrom_mono (text : List Char) (ts : List (List Char)) :
    ∀ c c2 : Nat, c2 ≤ c → OccursFrom text c ts → OccursFrom text c2 ts := by
  induction ts with
  | nil => intro c c2 _ _; trivial
  | cons t ts2 ih =>
    intro c c2 hle h
    obtain ⟨p, hcp, hne, hpre, htail⟩ := h
    exact ⟨p, Nat.le_trans hle hcp, hne, hpre, htail⟩

theorem splitWsF_occurs (text : List Char) :
    ∀ (fuel : Nat) (cs : List Char) (off : Nat),
    cs.length ≤ fuel → text.drop off = cs →
    OccursFrom text off (splitWsF fuel cs) := by
  intro fuel
  induction fuel with
  | zero => intro cs off _ _; trivial
  | succ f ih =>
    intro cs off hlen hdrop
    cases cs with
    | nil => trivial
    | cons c cs2 =>
      have hoff1 : text.drop (off + 1) = cs2 := by
        have h2 := congrArg (List.drop 1) hdrop
        rw [List.drop_drop] at h2
        simpa using h2
      simp only [splitWsF]
      split
      · refine occursFrom_mono text _ (off + 1) off (Nat.le_succ off) ?_
        exact ih cs2 (off + 1) (by simpa using Nat.le_of_succ_le_succ hlen) hoff1
      · refine ⟨off, Nat.le_refl off, by simp, ?_, ?_⟩
        · rw [hdrop]
          simp [isPrefixL, isPrefixL_takeWhile]
        · refine ih (cs2.dropWhile (fun x => !pyIsSpace x))
            (off + (c :: cs2.takeWhile (fun x => !pyIsSpace x)).length) ?_ ?_
          · have h1 : ∀ l : List Char,
                (l.dropWhile (fun x => !pyIsSpace x)).length ≤ l.length := by
              intro l
              induction l with
              | nil => simp [List.dropWhile]
              | cons x xs ih2 =>
                rw [List.dropWhile_cons]
                split
                · exact Nat.le_trans ih2 (Nat.le_succ _)
                · exact Nat.le_refl _
            have h2 := h1 cs2
            simp only [List.length_cons] at hlen
            omega
          · simp only [List.length_cons]
            have hsplit : off + ((cs2.takeWhile (fun x => !pyIsSpace x)).length + 1) =
                ((off + 1) + (cs2.takeWhile (fun x => !pyIsSpace x)).length) := by omega
            rw [hsplit,
              ← List.drop_drop ((cs2.takeWhile (fun x => !pyIsSpace x)).length) (off + 1) text]
            rw [hoff1]
            exact drop_takeWhile_length _ cs2

theorem pyFind_found (text nd : List Char) (c p : Nat) (hc : c ≤ p)
    (hp : isPrefixL nd (text.drop p) = true) :
    ∃ s : Nat, pyFind text nd (c : Int) = (s : Int) ∧ c ≤ s ∧ s ≤ p ∧
      isPrefixL nd (text.drop s) = true := by
  have hclamp : startClamp text.length (c : Int) = c := by
    unfold startClamp
    rw [if_neg (by omega)]
    exact Int.toNat_natCast c
  have hpre2 : isPrefixL nd ((text.drop c).drop (p - c)) = true := by
    rw [List.drop_drop]
    have he2 : c + (p - c) = p := by omega
    rw [he2]
    exact hp
  obtain ⟨i, hi, hile⟩ := firstOcc_exists_le nd (text.drop c) (p - c) hpre2
  refine ⟨i + c, ?_, Nat.le_add_left c i, by omega, ?_⟩
  · unfold pyFind
    rw [hclamp, hi]
  · have h3 := firstOcc_some nd (text.drop c) i hi
    rw [List.drop_drop, Nat.add_comm c i] at h3
    exact h3

theorem build_td_props (text : List Char) :
    ∀ (toks : List (List Char)) (c : Nat),
    OccursFrom text c toks →
    ∀ tk ∈ build_td_go text (c : Int) toks,
      ∃ s : Nat, tk.2.1 = (s : Int) ∧ c ≤ s ∧
        tk.2.2 = tk.2.1 + (tk.1.length : Int) ∧
        isPrefixL tk.1 (text.drop s) = true ∧ tk.1 ≠ [] := by
  intro toks
  induction toks with
  | nil =>
    intro c _ tk htk
    cases htk
  | cons t ts ih =>
    intro c hocc tk htk
    obtain ⟨p, hcp, hne, hpre, htail⟩ := hocc
    obtain ⟨s, hfind, hcs, hsp, hpres⟩ := pyFind_found text t c p hcp hpre
    simp only [build_td_go] at htk
    rw [hfind] at htk
    rcases List.mem_cons.mp htk with rfl | htk2
    · refine ⟨s, rfl, hcs, rfl, hpres, fun hnil => ?_⟩
      have ht : t = [] := hnil
      rw [ht] at hne
      exact hne rfl
    · have hcast : (s : Int) + (t.length : Int) = ((s + t.length : Nat) : Int) := by
        push_cast
        ring
      rw [hcast] at htk2
      have htail2 : OccursFrom text (s + t.length) ts :=
        occursFrom_mono text ts (p + t.length) (s + t.length) (by omega) htail
      obtain ⟨s2, h1, h2, h3, h4, h5⟩ := ih (s + t.length) htail2 tk htk2
      exact ⟨s2, h1, by omega, h3, h4, h5⟩

theorem build_td_mono (text : List Char) :
    ∀ (toks : List (List Char)) (c : Nat),
    OccursFrom text c toks →
    List.Pairwise (fun a b => a.2.1 < b.2.1) (build_td_go text (c : Int) toks) := by
  intro toks
  induction toks with
  | nil =>
    intro c _
    simp [build_td_go]
  | cons t ts ih =>
    intro c hocc
    obtain ⟨p, hcp, hne, hpre, htail⟩ := hocc
    obtain ⟨s, hfind, hcs, hsp, hpres⟩ := pyFind_found text t c p hcp hpre
    simp only [build_td_go]
    rw [hfind]
    have hcast : (s : Int) + (t.length : Int) = ((s + t.length : Nat) : Int) := by
      push_cast
      ring
    rw [hcast]
    have htail2 : OccursFrom text (s + t.length) ts :=
      occursFrom_mono text ts (p + t.length) (s + t.length) (by omega) htail
    refine List.Pairwise.cons ?_ (ih (s + t.length) htail2)
    intro b hb
    obtain ⟨s2, h1, h2, _, _, _⟩ := build_td_props text ts (s + t.length) htail2 b hb
    rw [h1]
    have ht1 : 1 ≤ t.length := by
      cases t with
      | nil => exact absurd rfl hne
      | cons a as => simp
    show (s : Int) < (s2 : Int)
    exact_mod_cast (by omega : s < s2)

theorem pySlice_take_eq (l t : List Char) (sN : Nat)
    (hpre : isPrefixL t (l.drop sN) = true) :
    pySlice l (sN : Int) ((sN : Int) + (t.length : Int)) = t := by
  have hlen : t.length ≤ l.length - sN := by
    have h0 := isPrefixL_length_le t _ hpre
    simpa [List.length_drop] using h0
  unfold pySlice sliceIdx
  rw [if_neg (by omega), if_neg (by omega)]
  have h1 : ((sN : Int)).toNat = sN := Int.toNat_natCast sN
  have h2 : ((sN : Int) + (t.length : Int)).toNat = sN + t.length := by omega
  rw [h1, h2]
  by_cases hcase : sN ≤ l.length
  · have hmin1 : min sN l.length = sN := by omega
    have hmin2 : min (sN + t.length) l.length = sN + t.length := by omega
    rw [hmin1, hmin2]
    have h3 : sN + t.length - sN = t.length := by omega
    rw [h3]
    exact take_eq_of_isPrefixL t _ hpre
  · have hdropnil : l.drop sN = [] := by
      rw [List.drop_eq_nil_iff_le]
      omega
    rw [hdropnil] at hpre
    have ht : t = [] := by
      cases t with
      | nil => rfl
      | cons a as => cases hpre
    subst ht
    simp

/-- Claim C8: for every document text, every `(token, start, end)` triple
emitted by the forward-scanning cursor search of `convert_to_conll` satisfies
`0 ≤ start` (the `find` call never fails), `end = start + len(token)`, and
`text[start:end] == token` — the emitted offsets applied back to the text
exactly reproduce each token's substring. -/
theorem claim_C8_thm (text t : List Char) (s e : Int)
    (h : (t, s, e) ∈ build_token_data text) :
    0 ≤ s ∧ e = s + (t.length : Int) ∧ pySlice text s e = t := by
  have hocc : OccursFrom text 0 (splitWs text) :=
    splitWsF_occurs text text.length text 0 (Nat.le_refl _) rfl
  have hb : (t, s, e) ∈ build_td_go text ((0 : Nat) : Int) (splitWs text) := h
  obtain ⟨sN, h1, _, h3, h4, _⟩ :=
    build_td_props text (splitWs text) 0 hocc (t, s, e) hb
  simp only at h1 h3 h4
  refine ⟨by rw [h1]; exact Int.natCast_nonneg sN, h3, ?_⟩
  rw [h3, h1]
  exact pySlice_take_eq text t sN h4

/-- Claim C8, witness: the text `"ab ab"` with its repeated token; the second
`ab` is located at offsets `(3, 5)` and the slice reproduces it. -/
theorem claim_C8_witness :
    (0 : Int) ≤ 3 ∧ (5 : Int) = 3 + (("ab".data.length : Nat) : Int) ∧
      pySlice "ab ab".data 3 5 = "ab".data :=
  claim_C8_thm "ab ab".data "ab".data 3 5 (by decide)

/-! ### Claim C6: the BIO tagging pass -/

theorem labels0_fold_mem (td : List (List Char × Int × Int)) :
    ∀ (m : List (Int × List Char)) (s : Int),
    alget (td.foldl (fun m2 t => alset m2 t.2.1 "O".data) m) s =
      if s ∈ td.map (fun x => x.2.1) then some "O".data else alget m s := by
  induction td with
  | nil =>
    intro m s
    simp
  | cons hd rest ih =>
    intro m s
    simp only [List.foldl_cons, List.map_cons, List.mem_cons]
    rw [ih]
    by_cases hs : s ∈ rest.map (fun x => x.2.1)
    · rw [if_pos hs, if_pos (Or.inr hs)]
    · rw [if_neg hs]
      by_cases he : s = hd.2.1
      · rw [if_pos (Or.inl he), alget_alset, if_pos he.symm]
      · rw [if_neg (by tauto), alget_alset, if_neg (fun x => he x.symm)]

theorem tagSpan_not_mem (b e : Int) (lab : List Char)
    (td : List (List Char × Int × Int)) :
    ∀ (inside : Bool) (m : List (Int × List Char)) (s : Int),
    s ∉ td.map (fun x => x.2.1) →
    alget (tagSpan b e lab td inside m) s = alget m s := by
  induction td with
  | nil =>
    intro inside m s _
    rfl
  | cons hd rest ih =>
    intro inside m s hs
    simp only [List.map_cons, List.mem_cons] at hs
    push_neg at hs
    simp only [tagSpan]
    split
    · split
      · rw [ih true _ s hs.2, alget_alset, if_neg (fun x => hs.1 x.symm)]
      · rw [ih true _ s hs.2, alget_alset, if_neg (fun x => hs.1 x.symm)]
    · exact ih inside m s hs.2

theorem tagSpan_get (b e : Int) (lab : List Char)
    (td : List (List Char × Int × Int)) :
    ∀ (inside : Bool) (m : List (Int × List Char)) (tk : List Char × Int × Int),
    List.Pairwise (fun a b2 => a.2.1 ≠ b2.2.1) td →
    tk ∈ td →
    alget (tagSpan b e lab td inside m) tk.2.1 =
      if containsTok b e tk then
        some ((if inside = true ∨ first_contained td b e ≠ some tk
          then "I-".data else "B-".data) ++ lab)
      else alget m tk.2.1 := by
  induction td with
  | nil =>
    intro inside m tk _ htk
    cases htk
  | cons hd rest ih =>
    intro inside m tk hpw htk
    have hpw2 := List.pairwise_cons.mp hpw
    simp only [tagSpan]
    rcases List.mem_cons.mp htk with rfl | htk2
    · have hnot : tk.2.1 ∉ rest.map (fun x => x.2.1) := by
        intro hmem
        obtain ⟨a, ha, he⟩ := List.mem_map.mp hmem
        exact hpw2.1 a ha he.symm
      by_cases hc : containsTok b e tk
      · rw [if_pos hc, if_pos hc]
        have hfc : first_contained (tk :: rest) b e = some tk := by
          unfold first_contained
          exact List.find?_cons_of_pos rest hc
        rw [hfc]
        cases inside with
        | true =>
          rw [if_pos rfl]
          rw [tagSpan_not_mem b e lab rest true _ _ hnot, alget_alset, if_pos rfl]
          rw [if_pos (Or.inl rfl)]
        | false =>
          rw [if_neg (by simp)]
          rw [tagSpan_not_mem b e lab rest true _ _ hnot, alget_alset, if_pos rfl]
          rw [if_neg (by simp)]
      · rw [if_neg hc, if_neg hc]
        exact tagSpan_not_mem b e lab rest inside m tk.2.1 hnot
    · have hne0 : hd.2.1 ≠ tk.2.1 := hpw2.1 tk htk2
      by_cases hc : containsTok b e hd
      · rw [if_pos hc]
        have hfc : first_contained (hd :: rest) b e = some hd := by
          unfold first_contained
          exact List.find?_cons_of_pos rest hc
        have hne : (some hd : Option (List Char × Int × Int)) ≠ some tk := by
          intro hx
          injection hx with hx2
          exact hne0 (by rw [hx2])
        have hstep : ∀ v : List Char,
            alget (tagSpan b e lab rest true (alset m hd.2.1 v)) tk.2.1 =
              if containsTok b e tk then
                some ("I-".data ++ lab)
              else alget m tk.2.1 := by
          intro v
          rw [ih true _ tk hpw2.2 htk2]
          by_cases hct : containsTok b e tk
          · rw [if_pos hct, if_pos hct, if_pos (Or.inl rfl)]
          · rw [if_neg hct, if_neg hct, alget_alset, if_neg hne0]
        have hrhs : (if containsTok b e tk then
            some ((if inside = true ∨ first_contained (hd :: rest) b e ≠ some tk
              then "I-".data else "B-".data) ++ lab)
            else alget m tk.2.1) =
            if containsTok b e tk then some ("I-".data ++ lab) else alget m tk.2.1 := by
          rw [hfc]
          by_cases hct : containsTok b e tk
          · rw [if_pos hct, if_pos hct, if_pos (Or.inr hne)]
          · rw [if_neg hct, if_neg hct]
        rw [hrhs]
        cases inside with
        | true => exact hstep _
        | false => exact hstep _
      · rw [if_neg hc]
        have hfc : first_contained (hd :: rest) b e = first_contained rest b e := by
          unfold first_contained
          exact List.find?_cons_of_neg rest (by simpa using hc)
        rw [ih inside m tk hpw2.2 htk2, hfc]

theorem assign_fold_get (td : List (List Char × Int × Int))
    (hpw : List.Pairwise (fun a b2 => a.2.1 ≠ b2.2.1) td)
    (tk : List Char × Int × Int) (htk : tk ∈ td) :
    ∀ (triples : List (Int × Int × List Char)) (m : List (Int × List Char)),
    alget (triples.foldl (fun m2 sp => tagSpan sp.1 sp.2.1 sp.2.2 td false m2) m)
        tk.2.1 =
      match last_containing tk triples with
      | none => alget m tk.2.1
      | some sp =>
        some ((if first_contained td sp.1 sp.2.1 = some tk
          then "B-".data else "I-".data) ++ sp.2.2) := by
  intro triples
  induction triples with
  | nil =>
    intro m
    rfl
  | cons sp rest ih =>
    intro m
    simp only [List.foldl_cons, last_containing]
    rw [ih]
    cases hl : last_containing tk rest with
    | some sp2 => rfl
    | none =>
      dsimp only
      rw [tagSpan_get sp.1 sp.2.1 sp.2.2 td false _ tk hpw htk]
      by_cases hc : containsTok sp.1 sp.2.1 tk
      · rw [if_pos hc, if_pos hc]
        dsimp only
        by_cases hf : first_contained td sp.1 sp.2.1 = some tk
        · rw [if_pos hf, if_neg (by simp [hf])]
        · rw [if_neg hf, if_pos (Or.inr hf)]
      · rw [if_neg hc, if_neg hc]

/-- Claim C6: in the BIO pass of `convert_to_conll`, every whitespace token's
label starts as `"O"`; for each span, the contained tokens (start offset
`≥ begin` and end offset `≤ end`, which for these nonempty tokens is the
claim's "start AND end both lie within `[begin, end]`") are tagged `B-label`
for the first and `I-label` for the rest; tokens contained in no span remain
`"O"`, and a later span's labels overwrite an earlier span's at shared token
start offsets — summarized by `bio_spec`: the winning span is the last one
containing the token. -/
theorem claim_C6_thm (text : List Char) (triples : List (Int × Int × List Char))
    (tk : List Char × Int × Int) (htk : tk ∈ build_token_data text) :
    alget (assign_labels (build_token_data text) triples) tk.2.1 =
      some (bio_spec (build_token_data text) triples tk) := by
  have hocc : OccursFrom text 0 (splitWs text) :=
    splitWsF_occurs text text.length text 0 (Nat.le_refl _) rfl
  have hmono := build_td_mono text (splitWs text) 0 hocc
  have hpw : List.Pairwise (fun a b2 => a.2.1 ≠ b2.2.1) (build_token_data text) :=
    hmono.imp ne_of_lt
  unfold assign_labels
  rw [assign_fold_get (build_token_data text) hpw tk htk triples
    (labels0 (build_token_data text))]
  unfold bio_spec
  cases hl : last_containing tk triples with
  | none =>
    unfold labels0
    rw [labels0_fold_mem]
    rw [if_pos (List.mem_map.mpr ⟨tk, htk, rfl⟩)]
  | some sp =>
    obtain ⟨b0, e0, lab0⟩ := sp
    dsimp only
    by_cases hf : first_contained (build_token_data text) b0 e0 = some tk
    · rw [if_pos hf, if_pos hf]
    · rw [if_neg hf, if_neg hf]

/-- Claim C6, witness: text `"ab cd"` with the single span `[0, 2]`; the
token `ab` at `(0, 2)` is contained and the characterization applies. -/
theorem claim_C6_witness :
    alget (assign_labels (build_token_data "ab cd".data) [(0, 2, "X".data)])
        (("ab".data, (0 : Int), (2 : Int)) : List Char × Int × Int).2.1 =
      some (bio_spec (build_token_data "ab cd".data) [(0, 2, "X".data)]
        ("ab".data, (0 : Int), (2 : Int))) :=
  claim_C6_thm "ab cd".data [(0, 2, "X".data)] ("ab".data, 0, 2) (by decide)
